import Mathlib

/-!
# Verification of the better-sse client

Shallow embedding of `packages/better-sse/src` (the `createSplitStream` /
`createParseStream` transform streams, the `BetterSSEStream` reconnecting
iterator and the `useSSEStream` option normalisation) together with proofs
about the embedded definitions.

Strings of the JavaScript source are modelled as `List Char`; machine
numbers coming out of `Number.parseInt` are modelled as `Int`.
-/

namespace BetterSSE

/-! ## Data model: `SSEMessage` (sse-stream.ts) -/

/-- Structure SSEMessage from sse-stream.ts: `event` defaults to `"message"`,
`data` is the joined data lines, `id` and `retry` are optional. -/
structure SSEMessage where
  event : List Char
  data : List Char
  id? : Option (List Char)
  retry? : Option Int
deriving DecidableEq, Repr

/-! ## Framer: `createSplitStream` (transforms.ts)

The transform keeps a buffer, appends each chunk, splits the buffer on the
`"\n\n"` delimiter (JavaScript `String.prototype.split`, leftmost
non-overlapping matches), emits every piece but the last when it passes
`isValidString`, and keeps the last piece as the new buffer.  On flush the
remaining buffer is emitted when it passes `isValidString`. -/

/-- Prepend a character onto the first piece of a split result
(helper describing how `split` distributes over a leading character
that is not part of a delimiter occurrence). -/
def consHead (c : Char) : List (List Char) → List (List Char)
  | [] => [[c]]
  | p :: ps => (c :: p) :: ps

/-- JavaScript `s.split('\n\n')`: leftmost, non-overlapping occurrences of
the two-character delimiter. -/
def splitOnNN : List Char → List (List Char)
  | [] => [[]]
  | [c] => [[c]]
  | c1 :: c2 :: rest =>
    if c1 = '\n' ∧ c2 = '\n' then [] :: splitOnNN rest
    else consHead c1 (splitOnNN (c2 :: rest))

/-- Whitespace characters for the purposes of trimming. -/
def isWS (c : Char) : Bool :=
  c == ' ' || c == '\t' || c == '\n' || c == '\r'

/-- Modelled from the spec: `isValidString` is imported from `utils.ts`,
which is absent from src/.  The spec states that emitted frames are
"guaranteed non-empty after trimming" and that "leading/trailing
whitespace-only frames are discarded", so the predicate holds exactly when
the string contains a non-whitespace character. -/
def isValidString (s : List Char) : Bool :=
  s.any (fun c => !isWS c)

/-- Last element of a split result (the piece the split stream keeps as its
buffer); split results are never empty, the default is never used. -/
def lastD : List (List Char) → List Char
  | [] => []
  | [p] => p
  | _ :: p :: ps => lastD (p :: ps)

/-- One `transform(chunk)` call of `createSplitStream`: returns the emitted
frames and the new buffer. -/
def feedChunk (buf chunk : List Char) : List (List Char) × List Char :=
  let parts := splitOnNN (buf ++ chunk)
  (parts.dropLast.filter isValidString, lastD parts)

/-- Feeding a sequence of chunks through `createSplitStream`, starting from
buffer `buf`: all frames emitted by the `transform` calls, and the final
buffer. -/
def feedAll : List Char → List (List Char) → List (List Char) × List Char
  | buf, [] => ([], buf)
  | buf, c :: cs =>
    ((feedChunk buf c).1 ++ (feedAll (feedChunk buf c).2 cs).1,
      (feedAll (feedChunk buf c).2 cs).2)

/-- The `flush` callback of `createSplitStream` applied after the transform
calls: emit the residual buffer when it passes `isValidString`. -/
def flushFrames (p : List (List Char) × List Char) : List (List Char) :=
  p.1 ++ (if isValidString p.2 then [p.2] else [])

/-- All raw frames produced by `createSplitStream` over a chunk sequence
(fresh stream: initial buffer `''`), including flush. -/
def pipelineFrames (chunks : List (List Char)) : List (List Char) :=
  flushFrames (feedAll [] chunks)

/-! ## Event parser: `createParseStream` (transforms.ts) -/

/-- Loop state of the parse transform: `event = 'message'`,
`data = []`, `id`/`retry` unset. -/
structure ParseState where
  event : List Char
  data : List (List Char)
  idF : Option (List Char)
  retryF : Option Int
deriving DecidableEq, Repr

/-- Initial parse loop state. -/
def initPS : ParseState :=
  ⟨"message".toList, [], none, none⟩

/-- Strip at most one leading space from a field value:
`value.startsWith(' ') ? value.slice(1) : value`. -/
def stripSpace : List Char → List Char
  | ' ' :: rest => rest
  | v => v

/-- JavaScript `Number.parseInt(value, 10)` returning `none` for `NaN`:
skip leading whitespace, read an optional sign, then the longest digit
prefix; no digits means `NaN`. -/
def jsParseInt (v : List Char) : Option Int :=
  let t := v.dropWhile isWS
  let sr : Int × List Char :=
    match t with
    | '-' :: r => (-1, r)
    | '+' :: r => (1, r)
    | _ => (1, t)
  let ds := sr.2.takeWhile Char.isDigit
  if ds = [] then none
  else some (sr.1 * (ds.foldl (fun a c => a * 10 + (c.toNat - 48)) 0 : Nat))

/-- One iteration of the `for (const line of lines)` loop of
`createParseStream`. -/
def processLine (st : ParseState) (line : List Char) : ParseState :=
  if line = [] ∨ line.head? = some ':' then st
  else
    match line.findIdx? (fun c => c == ':') with
    | none => st
    | some i =>
      let field := line.take i
      let value := stripSpace (line.drop (i + 1))
      if field = "event".toList then { st with event := value }
      else if field = "data".toList then { st with data := st.data ++ [value] }
      else if field = "id".toList then
        if value.contains '\x00' then st else { st with idF := some value }
      else if field = "retry".toList then
        match jsParseInt value with
        | some n => { st with retryF := some n }
        | none => st
      else st

/-- The parse transform `createParseStream` applied to one raw frame: split into lines on
`'\n'`, run the field loop, and produce a message only when at least one
`data` line was seen. -/
def parseFrame (frame : List Char) : Option SSEMessage :=
  let st := (frame.splitOn '\n').foldl processLine initPS
  if st.data ≠ [] then
    some ⟨st.event, List.intercalate ['\n'] st.data, st.idF, st.retryF⟩
  else none

/-- Full per-connection pipeline `createSplitStream` then
`createParseStream`: decoded events for a sequence of text chunks. -/
def pipelineEvents (chunks : List (List Char)) : List SSEMessage :=
  (pipelineFrames chunks).filterMap parseFrame

/-! ### Lemmas about the delimiter split -/

theorem consHead_ne_nil (c : Char) (l : List (List Char)) : consHead c l ≠ [] := by
  cases l <;> simp [consHead]

theorem splitOnNN_ne_nil (l : List Char) : splitOnNN l ≠ [] := by
  induction l using splitOnNN.induct with
  | case1 => simp [splitOnNN]
  | case2 c => simp [splitOnNN]
  | case3 c1 c2 rest hc ih => simp [splitOnNN, hc.1, hc.2]
  | case4 c1 c2 rest hc ih =>
    simp only [splitOnNN, if_neg hc]
    exact consHead_ne_nil _ _

/-- A split with a single piece means the delimiter never occurred: the
piece is the whole input. -/
theorem splitOnNN_singleton {l p : List Char} (h : splitOnNN l = [p]) : p = l := by
  induction l using splitOnNN.induct generalizing p with
  | case1 => simpa [splitOnNN] using h.symm
  | case2 c => simpa [splitOnNN] using h.symm
  | case3 c1 c2 rest hc ih =>
    exfalso
    simp only [splitOnNN, if_pos hc] at h
    exact splitOnNN_ne_nil rest (List.cons_eq_cons.mp h).2
  | case4 c1 c2 rest hc ih =>
    simp only [splitOnNN, if_neg hc] at h
    rcases hs : splitOnNN (c2 :: rest) with _ | ⟨q, qs⟩
    · exact absurd hs (splitOnNN_ne_nil _)
    · rw [hs, consHead] at h
      obtain ⟨h1, h2⟩ := List.cons_eq_cons.mp h
      cases h2
      have := ih hs
      simp [← h1, this]

theorem lastD_cons_of_ne_nil {l : List (List Char)} (a : List Char) (h : l ≠ []) :
    lastD (a :: l) = lastD l := by
  cases l with
  | nil => exact absurd rfl h
  | cons b bs => rfl

theorem lastD_append_of_ne_nil {l2 : List (List Char)} (l1 : List (List Char))
    (h : l2 ≠ []) : lastD (l1 ++ l2) = lastD l2 := by
  induction l1 with
  | nil => rfl
  | cons a l1 ih =>
    rw [List.cons_append, lastD_cons_of_ne_nil a (by simp [h]), ih]

theorem dropLast_cons_of_ne_nil {α : Type} {l : List α} (a : α) (h : l ≠ []) :
    (a :: l).dropLast = a :: l.dropLast := by
  cases l with
  | nil => exact absurd rfl h
  | cons b bs => rfl

theorem dropLast_append_of_ne_nil {α : Type} {l2 : List α} (l1 : List α)
    (h : l2 ≠ []) : (l1 ++ l2).dropLast = l1 ++ l2.dropLast := by
  induction l1 with
  | nil => rfl
  | cons a l1 ih =>
    rw [List.cons_append, dropLast_cons_of_ne_nil a (by simp [h]), ih,
      List.cons_append]

/-- Key compositionality property of the JavaScript split: splitting
`x ++ y` is splitting `x`, keeping all complete pieces, and re-splitting
the (possibly incomplete) last piece of `x` glued to `y`. -/
theorem splitOnNN_append (x y : List Char) :
    splitOnNN (x ++ y) =
      (splitOnNN x).dropLast ++ splitOnNN (lastD (splitOnNN x) ++ y) := by
  induction x using splitOnNN.induct with
  | case1 => simp [splitOnNN, lastD]
  | case2 c => simp [splitOnNN, lastD]
  | case3 c1 c2 rest hc ih =>
    obtain ⟨e1, e2⟩ := hc
    subst e1; subst e2
    have hne := splitOnNN_ne_nil rest
    rw [List.cons_append, List.cons_append]
    rw [show splitOnNN ('\n' :: '\n' :: (rest ++ y)) = [] :: splitOnNN (rest ++ y) from by
      simp [splitOnNN]]
    rw [show splitOnNN ('\n' :: '\n' :: rest) = [] :: splitOnNN rest from by
      simp [splitOnNN]]
    rw [dropLast_cons_of_ne_nil _ hne, lastD_cons_of_ne_nil _ hne, ih]
    simp
  | case4 c1 c2 rest hc ih =>
    have hne := splitOnNN_ne_nil (c2 :: rest)
    rw [List.cons_append, List.cons_append]
    rw [show splitOnNN (c1 :: c2 :: (rest ++ y)) =
          consHead c1 (splitOnNN (c2 :: (rest ++ y))) from by
      simp only [splitOnNN, if_neg hc]]
    rw [show splitOnNN (c1 :: c2 :: rest) = consHead c1 (splitOnNN (c2 :: rest)) from by
      simp only [splitOnNN, if_neg hc]]
    rcases hs : splitOnNN (c2 :: rest) with _ | ⟨p, ps⟩
    · exact absurd hs hne
    rcases ps with _ | ⟨q, qs⟩
    · -- single piece: `p` is the whole of `c2 :: rest`
      have hp : p = c2 :: rest := splitOnNN_singleton hs
      subst hp
      show consHead c1 (splitOnNN (c2 :: (rest ++ y))) =
        [c1 :: c2 :: rest].dropLast ++ splitOnNN (lastD [c1 :: c2 :: rest] ++ y)
      simp only [List.dropLast_single, List.nil_append, lastD]
      rw [show splitOnNN ((c1 :: c2 :: rest) ++ y) =
            consHead c1 (splitOnNN (c2 :: (rest ++ y))) from by
        simp only [List.cons_append, splitOnNN, if_neg hc]
        rfl]
    · -- at least two pieces
      rw [List.cons_append] at ih
      rw [hs] at ih
      rw [ih]
      simp [consHead, lastD, dropLast_cons_of_ne_nil]

/-- The retained buffer (last piece of a split) contains no delimiter:
splitting it again returns it whole. -/
theorem splitOnNN_lastD (l : List Char) :
    splitOnNN (lastD (splitOnNN l)) = [lastD (splitOnNN l)] := by
  induction l using splitOnNN.induct with
  | case1 => simp [splitOnNN, lastD]
  | case2 c => simp [splitOnNN, lastD]
  | case3 c1 c2 rest hc ih =>
    obtain ⟨e1, e2⟩ := hc
    subst e1; subst e2
    rw [show splitOnNN ('\n' :: '\n' :: rest) = [] :: splitOnNN rest from by
      simp [splitOnNN]]
    rw [lastD_cons_of_ne_nil _ (splitOnNN_ne_nil rest)]
    exact ih
  | case4 c1 c2 rest hc ih =>
    rw [show splitOnNN (c1 :: c2 :: rest) = consHead c1 (splitOnNN (c2 :: rest)) from by
      simp only [splitOnNN, if_neg hc]]
    rcases hs : splitOnNN (c2 :: rest) with _ | ⟨p, ps⟩
    · exact absurd hs (splitOnNN_ne_nil _)
    rcases ps with _ | ⟨q, qs⟩
    · have hp : p = c2 :: rest := splitOnNN_singleton hs
      subst hp
      show splitOnNN (lastD [c1 :: c2 :: rest]) = [lastD [c1 :: c2 :: rest]]
      simp only [lastD]
      rw [show splitOnNN (c1 :: c2 :: rest) = consHead c1 (splitOnNN (c2 :: rest)) from by
        simp only [splitOnNN, if_neg hc]]
      rw [hs]
      rfl
    · have hcons : consHead c1 (p :: q :: qs) = (c1 :: p) :: q :: qs := rfl
      rw [hcons, lastD_cons_of_ne_nil _ (by simp)]
      rw [hs] at ih
      rwa [lastD_cons_of_ne_nil _ (by simp)] at ih

/-- Feeding a chunk list whose buffer is delimiter-free is the same as
feeding the concatenation of the chunks in one `transform` call. -/
theorem feedAll_flatten (cs : List (List Char)) :
    ∀ buf, splitOnNN buf = [buf] → feedAll buf cs = feedChunk buf cs.flatten := by
  induction cs with
  | nil =>
    intro buf h
    simp [feedAll, feedChunk, h, lastD]
  | cons c cs ih =>
    intro buf h
    have hQne := splitOnNN_ne_nil (lastD (splitOnNN (buf ++ c)) ++ cs.flatten)
    have hstep := splitOnNN_append (buf ++ c) cs.flatten
    have hbuf := splitOnNN_lastD (buf ++ c)
    simp only [feedAll, List.flatten_cons]
    rw [show (feedChunk buf c).2 = lastD (splitOnNN (buf ++ c)) from rfl]
    rw [ih _ hbuf]
    simp only [feedChunk]
    rw [← List.append_assoc, hstep]
    rw [dropLast_append_of_ne_nil _ hQne, lastD_append_of_ne_nil _ hQne,
      List.filter_append]

/-- C1 core: the raw frames coming out of `createSplitStream` (flush
included) do not depend on the chunking. -/
theorem pipelineFrames_chunking (chunks : List (List Char)) :
    pipelineFrames chunks = pipelineFrames [chunks.flatten] := by
  unfold pipelineFrames
  have h0 : splitOnNN ([] : List Char) = [[]] := rfl
  rw [feedAll_flatten chunks [] h0]
  have h1 : feedAll [] [chunks.flatten] = feedChunk [] chunks.flatten := by
    simp only [feedAll]
    exact Prod.ext (by simp) rfl
  rw [h1]

/-! ### Lemmas about the field parser -/

/-- The `data` value contributed by a single line of the
`createParseStream` field loop: the field value when the line is a
(non-comment, non-empty) `data:` line, nothing otherwise. -/
def dataValueOfLine (line : List Char) : Option (List Char) :=
  if line = [] ∨ line.head? = some ':' then none
  else
    match line.findIdx? (fun c => c == ':') with
    | none => none
    | some i =>
      if line.take i = "data".toList then some (stripSpace (line.drop (i + 1)))
      else none

theorem processLine_data (st : ParseState) (line : List Char) :
    (processLine st line).data = st.data ++ (dataValueOfLine line).toList := by
  have hev : "event".toList = ['e', 'v', 'e', 'n', 't'] := rfl
  have hdt : "data".toList = ['d', 'a', 't', 'a'] := rfl
  have hid : "id".toList = ['i', 'd'] := rfl
  have hrt : "retry".toList = ['r', 'e', 't', 'r', 'y'] := rfl
  unfold processLine dataValueOfLine
  simp only [hev, hdt, hid, hrt]
  by_cases h0 : line = [] ∨ line.head? = some ':'
  · simp [h0]
  · simp only [if_neg h0]
    rcases hf : line.findIdx? (fun c => c == ':') with _ | i
    · simp
    · by_cases hd : line.take i = ['d', 'a', 't', 'a']
      · have hne : ¬ line.take i = ['e', 'v', 'e', 'n', 't'] := by
          rw [hd]; decide
        simp [if_neg hne, if_pos hd]
      · simp only [if_neg hd]
        split_ifs <;> first | (split <;> simp) | simp

/-- The field loop accumulates `data` values in order of appearance. -/
theorem foldl_processLine_data (lines : List (List Char)) :
    ∀ st : ParseState,
      (lines.foldl processLine st).data = st.data ++ lines.filterMap dataValueOfLine := by
  induction lines with
  | nil => intro st; simp
  | cons l ls ih =>
    intro st
    simp only [List.foldl_cons, ih, processLine_data, List.filterMap_cons]
    rcases dataValueOfLine l with _ | v <;> simp

/-! ## Claim theorems about the framing/parsing pipeline -/

/-- Claim C1: for every SSE document and every way of splitting it into a
sequence of text chunks (including splits falling inside the `\n\n`
delimiter or inside a field name), feeding the chunks one at a time
through the split stream followed by the parse stream produces exactly
the same events as feeding the entire document as a single chunk. -/
theorem claim_C1_chunking_invariance (chunks : List (List Char)) :
    pipelineEvents chunks = pipelineEvents [chunks.flatten] := by
  unfold pipelineEvents
  rw [pipelineFrames_chunking]

/-- Claim C6, code bug evidence: the parser accepts a negative `retry`
value.  On the frame `"data: x\nretry: -5"`, `Number.parseInt` yields
`-5`, the `Number.isNaN` guard passes, and the produced event carries
`retry = -5`, although the claim (and the WHATWG algorithm the README
says the parser follows strictly) requires non-digit-only values such as
`"-5"` to be ignored. -/
theorem claim_C6_negative_retry_accepted :
    parseFrame "data: x\nretry: -5".toList =
      some ⟨"message".toList, "x".toList, none, some (-5)⟩ ∧
    jsParseInt "-5".toList = some (-5) := by
  exact ⟨rfl, rfl⟩

/-- Claim C8: the data string of every produced event is the `data` line
values of the frame joined with `'\n'` in order of appearance; in
particular `"data: a\ndata: b"` yields data `"a\nb"`. -/
theorem claim_C8_multi_data_join :
    (∀ (frame : List Char) (m : SSEMessage), parseFrame frame = some m →
      m.data =
        List.intercalate ['\n'] ((frame.splitOn '\n').filterMap dataValueOfLine)) ∧
    parseFrame "data: a\ndata: b".toList =
      some ⟨"message".toList, "a\nb".toList, none, none⟩ := by
  constructor
  · intro frame m h
    simp only [parseFrame] at h
    have hd := foldl_processLine_data (frame.splitOn '\n') initPS
    split at h
    · cases h
      dsimp only
      rw [hd]
      simp [initPS]
    · cases h
  · rfl

/-- Witness for C8: applying the theorem to the concrete frame
`"data: a\ndata: b"`. -/
theorem claim_C8_multi_data_join_witness :
    (⟨"message".toList, "a\nb".toList, none, none⟩ : SSEMessage).data =
      List.intercalate ['\n']
        (("data: a\ndata: b".toList.splitOn '\n').filterMap dataValueOfLine) :=
  claim_C8_multi_data_join.1 "data: a\ndata: b".toList
    ⟨"message".toList, "a\nb".toList, none, none⟩ claim_C8_multi_data_join.2

/-- Claim C9: a frame with no `data` line — in particular one consisting
only of comment lines starting with `':'`, empty lines, or lines without
a colon — produces no event. -/
theorem claim_C9_no_data_no_event :
    (∀ frame : List Char,
      (∀ line ∈ frame.splitOn '\n', dataValueOfLine line = none) →
      parseFrame frame = none) ∧
    (∀ frame : List Char,
      (∀ line ∈ frame.splitOn '\n',
        line = [] ∨ line.head? = some ':' ∨ ':' ∉ line) →
      parseFrame frame = none) := by
  have main : ∀ frame : List Char,
      (∀ line ∈ frame.splitOn '\n', dataValueOfLine line = none) →
      parseFrame frame = none := by
    intro frame h
    have hnil : (frame.splitOn '\n').filterMap dataValueOfLine = [] :=
      List.filterMap_eq_nil_iff.mpr h
    have hdata : ((frame.splitOn '\n').foldl processLine initPS).data = [] := by
      rw [foldl_processLine_data, hnil]
      rfl
    simp [parseFrame, hdata]
  refine ⟨main, fun frame h => main frame ?_⟩
  intro line hline
  rcases h line hline with h1 | h2 | h3
  · simp [dataValueOfLine, h1]
  · simp [dataValueOfLine, h2]
  · have hfind : line.findIdx? (fun c => c == ':') = none := by
      rw [List.findIdx?_eq_none_iff]
      intro x hx
      simp only [beq_eq_false_iff_ne, ne_eq]
      intro hcon
      exact h3 (hcon ▸ hx)
    unfold dataValueOfLine
    split_ifs with h0
    · rfl
    · rw [hfind]

/-- Witness for C9: a pure-comment keepalive frame yields no event. -/
theorem claim_C9_no_data_no_event_witness :
    parseFrame ": keepalive\n: again".toList = none :=
  claim_C9_no_data_no_event.2 ": keepalive\n: again".toList (by decide)

/-! ## The `BetterSSEStream` iterator (sse-stream.ts)

Operational model of the async methods `connect`, `reconnect`, `next`
and `close`.  The external world is an oracle: a list of outcomes for the
successive `fetch` calls (a successful fetch carries the events that the
decode → split → parse pipeline of `connect` will deliver, plus how the
body stream ends), and an optional abort schedule for the
`AbortController` signal (`some (some a)` = a controller whose `abort()`
fires at absolute time `a`; `some none` = a controller that never fires;
`none` = no controller supplied).  Time is a counter advanced only by
backoff waits, so "the abort fires during the wait" is expressed by the
abort time falling inside the wait window.  Each operation returns its
result, the successor state, the connection attempts made (each recorded
with the `Last-Event-ID` header it sent, `none` when the header was
omitted) and the actual durations waited in backoff. -/

/-- How the body stream of a successful fetch ends once its events are
drained: a clean end (`read` reports done) or a read error. -/
inductive EndKind where
  | cleanEnd
  | readError
deriving DecidableEq, Repr

/-- Outcome of one `fetch` call: failure (connection refused, non-2xx
status, or missing body — all reach the same `catch`), or success with
the events the pipeline will decode and the way the stream ends. -/
inductive FetchResult where
  | fail
  | ok (events : List SSEMessage) (endK : EndKind)
deriving DecidableEq, Repr

/-- Errors propagating through the model: the `AbortError` produced by
the abort signal, any other `Error`, and an out-of-fuel marker used only
below the fuel bound of a run. -/
inductive JSError where
  | abortError
  | genericError
  | outOfFuel
deriving DecidableEq, Repr

/-- Configuration of a `BetterSSEStream` (post-defaulting fields it
reads), together with the external abort schedule. -/
structure Options where
  retryStrategy : Bool
  initialRetryDelay : Nat
  maxRetryDelay : Nat
  /-- Value none models `maxRetries = Infinity`. -/
  maxRetries : Option Nat
  /-- Value none: no controller; `some none`: controller, never aborted;
  `some (some a)`: controller whose `abort()` fires at time `a`. -/
  abortController : Option (Option Nat)
  lastEventId : Option (List Char)
deriving DecidableEq, Repr

/-- Mutable state of a `BetterSSEStream`: `retryCount`,
`currentLastEventId`, `stream` (remaining events plus end kind),
whether a reader is attached, the current time, and the remaining fetch
oracle.  An exhausted oracle behaves as an always-failing transport. -/
structure MState where
  retryCount : Nat
  cursor : Option (List Char)
  stream : Option (List SSEMessage × EndKind)
  readerAttached : Bool
  time : Nat
  world : List FetchResult
deriving DecidableEq, Repr

/-- Result of one model operation: outcome, successor state, connection
attempts made (with the resumption header each sent), actual backoff
durations waited. -/
structure Out (α : Type) where
  res : Except JSError α
  st : MState
  attempts : List (Option (List Char))
  delays : List Nat
deriving Repr

/-- Prefix bookkeeping: attempts/delays accumulated before `r`. -/
def Out.pre (a : List (Option (List Char))) (d : List Nat) (r : Out α) : Out α :=
  { r with attempts := a ++ r.attempts, delays := d ++ r.delays }

/-- Whether the abort signal has fired at time `t`. -/
def abortedAt (o : Options) (t : Nat) : Bool :=
  match o.abortController with
  | some (some a) => a ≤ t
  | _ => false

/-- Model of `shouldRetry()`: `retryCount < (maxRetries ?? Infinity)`. -/
def shouldRetry (o : Options) (rc : Nat) : Bool :=
  match o.maxRetries with
  | none => true
  | some m => rc < m

/-- JavaScript truthiness of an optional string: `undefined` and the
empty string are falsy. -/
def truthyStr : Option (List Char) → Bool
  | some (_ :: _) => true
  | _ => false

/-- The `Last-Event-ID` header sent by `connect`: present exactly when
`currentLastEventId` is truthy. -/
def headerOf (c : Option (List Char)) : Option (List Char) :=
  if truthyStr c then c else none

/-- One `reader.read()` on the current stream at the current time:
an abort signal errors the read; otherwise the next buffered event is
delivered, or the stream end is observed. -/
def readStep (o : Options) (s : MState) :
    Except JSError (Option SSEMessage) × MState :=
  if abortedAt o s.time then (.error .abortError, s)
  else
    match s.stream with
    | some (v :: rest, k) => (.ok (some v), { s with stream := some (rest, k) })
    | some ([], .cleanEnd) => (.ok none, s)
    | some ([], .readError) => (.error .genericError, s)
    | none => (.error .genericError, s)

/-- The initial state of a freshly constructed `BetterSSEStream`
(`currentLastEventId = options.lastEventId`). -/
def initState (o : Options) (world : List FetchResult) : MState :=
  ⟨0, o.lastEventId, none, false, 0, world⟩

mutual

/-- Model of `connect()`: build headers (resumption header from the truthy
cursor), `fetch`, on failure either `reconnect` (retry enabled and
budget remaining) or rethrow; on success reset `retryCount` and install
the piped stream.  A fetch issued on an already-aborted signal rejects
with `AbortError` without a network attempt. -/
def connectFn : Nat → Options → MState → Out Unit
  | 0, _, s => ⟨.error .outOfFuel, s, [], []⟩
  | fuel + 1, o, s =>
    if abortedAt o s.time then
      if o.retryStrategy && shouldRetry o s.retryCount then reconnectFn fuel o s
      else ⟨.error .abortError, s, [], []⟩
    else
      match s.world with
      | .ok evs k :: rest =>
        ⟨.ok (), { s with world := rest, retryCount := 0, stream := some (evs, k) },
          [headerOf s.cursor], []⟩
      | .fail :: rest =>
        connectFail fuel o { s with world := rest } (headerOf s.cursor)
      | [] => connectFail fuel o s (headerOf s.cursor)

/-- The `catch` branch of `connect` after a failed fetch. -/
def connectFail : Nat → Options → MState → Option (List Char) → Out Unit
  | 0, _, s, _ => ⟨.error .outOfFuel, s, [], []⟩
  | fuel + 1, o, s, hdr =>
    if o.retryStrategy && shouldRetry o s.retryCount then
      Out.pre [hdr] [] (reconnectFn fuel o s)
    else ⟨.error .genericError, s, [hdr], []⟩

/-- Model of `reconnect()`: increment `retryCount`, compute the exponential
backoff delay, throw `AbortError` if the signal already fired, wait
(the wait is interrupted by an abort firing inside the window), then
`connect()` again. -/
def reconnectFn : Nat → Options → MState → Out Unit
  | 0, _, s => ⟨.error .outOfFuel, s, [], []⟩
  | fuel + 1, o, s =>
    let rc := s.retryCount + 1
    let d := min (o.initialRetryDelay * 2 ^ (rc - 1)) o.maxRetryDelay
    let s1 : MState := { s with retryCount := rc }
    if abortedAt o s1.time then ⟨.error .abortError, s1, [], []⟩
    else
      match o.abortController with
      | some (some a) =>
        if a < s1.time + d then
          ⟨.error .abortError, { s1 with time := a }, [], [a - s1.time]⟩
        else
          Out.pre [] [d] (connectFn fuel o { s1 with time := s1.time + d })
      | _ => Out.pre [] [d] (connectFn fuel o { s1 with time := s1.time + d })

/-- Model of `next()`: attach a reader (connecting first when there is no
stream — errors of this phase propagate to the caller, they are outside
the `try`), then run the guarded read. -/
def nextFn : Nat → Options → MState → Out (Option SSEMessage)
  | 0, _, s => ⟨.error .outOfFuel, s, [], []⟩
  | fuel + 1, o, s =>
    if s.readerAttached then tryPhase fuel o s
    else
      match s.stream with
      | some _ => tryPhase fuel o { s with readerAttached := true }
      | none =>
        let c := connectFn fuel o s
        match c.res with
        | .error e => ⟨.error e, c.st, c.attempts, c.delays⟩
        | .ok _ =>
          match c.st.stream with
          | none => ⟨.error .genericError, c.st, c.attempts, c.delays⟩
          | some _ =>
            Out.pre c.attempts c.delays
              (tryPhase fuel o { c.st with readerAttached := true })

/-- The `try` block of `next()`: read; on a value update the cursor (for
truthy ids) and return it; on done either finish or reconnect and pull
again (the reconnect error is caught, the recursive `next()` result is
returned un-caught); on error run the catch block. -/
def tryPhase : Nat → Options → MState → Out (Option SSEMessage)
  | 0, _, s => ⟨.error .outOfFuel, s, [], []⟩
  | fuel + 1, o, s =>
    match readStep o s with
    | (.error e, s2) => catchBlock fuel o s2 e
    | (.ok none, s2) =>
      if o.retryStrategy && shouldRetry o s2.retryCount then
        let r := reconnectFn fuel o
          { s2 with readerAttached := false, stream := none }
        match r.res with
        | .error e => Out.pre r.attempts r.delays (catchBlock fuel o r.st e)
        | .ok _ => Out.pre r.attempts r.delays (nextFn fuel o r.st)
      else ⟨.ok none, { s2 with readerAttached := false }, [], []⟩
    | (.ok (some v), s2) =>
      ⟨.ok (some v),
        if truthyStr v.id? then { s2 with cursor := v.id? } else s2, [], []⟩

/-- The `catch` block of `next()`: a non-abort error with retry budget
reconnects (reconnect errors propagate un-caught) and pulls again;
anything else resolves as `{done: true}`. -/
def catchBlock : Nat → Options → MState → JSError → Out (Option SSEMessage)
  | 0, _, s, _ => ⟨.error .outOfFuel, s, [], []⟩
  | fuel + 1, o, s, e =>
    if e != .abortError && (o.retryStrategy && shouldRetry o s.retryCount) then
      let r := reconnectFn fuel o { s with readerAttached := false, stream := none }
      match r.res with
      | .error e2 => ⟨.error e2, r.st, r.attempts, r.delays⟩
      | .ok _ => Out.pre r.attempts r.delays (nextFn fuel o r.st)
    else ⟨.ok none, { s with readerAttached := false }, [], []⟩

end

/-- Model of `close()`: abort the supplied controller (a no-op when none was
supplied — the optional chaining `this.options.abortController?.abort()`),
cancel the reader and clear the stream/reader references.  Aborting a
controller makes its signal fire now (an already-fired signal stays
fired). -/
def close (o : Options) (s : MState) : Options × MState :=
  (match o.abortController with
   | none => o
   | some none => { o with abortController := some (some s.time) }
   | some (some a) => { o with abortController := some (some (min a s.time)) },
   { s with stream := none, readerAttached := false })

/-! ### General lemmas about the iterator model -/

theorem readStep_cursor (o : Options) (s : MState) :
    (readStep o s).2.cursor = s.cursor := by
  unfold readStep
  split
  · rfl
  · split <;> rfl

theorem Out.pre_res (a : List (Option (List Char))) (d : List Nat) (r : Out α) :
    (Out.pre a d r).res = r.res := rfl

theorem Out.pre_st (a : List (Option (List Char))) (d : List Nat) (r : Out α) :
    (Out.pre a d r).st = r.st := rfl

/-- The functions `connect`/`reconnect` never touch `currentLastEventId`: the cursor is
only written by `next()` when it emits an event. -/
theorem driver_cursor (fuel : Nat) :
    (∀ o s, (connectFn fuel o s).st.cursor = s.cursor) ∧
    (∀ o s hdr, (connectFail fuel o s hdr).st.cursor = s.cursor) ∧
    (∀ o s, (reconnectFn fuel o s).st.cursor = s.cursor) := by
  induction fuel with
  | zero => exact ⟨fun o s => rfl, fun o s hdr => rfl, fun o s => rfl⟩
  | succ fuel ih =>
    obtain ⟨ihc, ihf, ihr⟩ := ih
    refine ⟨?_, ?_, ?_⟩
    · intro o s
      simp only [connectFn]
      split
      · split
        · exact ihr o s
        · rfl
      · split
        · rfl
        · exact ihf o _ _
        · exact ihf o _ _
    · intro o s hdr
      simp only [connectFail]
      split
      · exact ihr o s
      · rfl
    · intro o s
      simp only [reconnectFn]
      split
      · rfl
      · split
        · split
          · rfl
          · exact ihc o _
        · exact ihc o _

/-- Every attempt recorded by `connect`/`reconnect` carries the
resumption header computed from the cursor at entry. -/
theorem driver_attempts (fuel : Nat) :
    (∀ o s, ∀ a ∈ (connectFn fuel o s).attempts, a = headerOf s.cursor) ∧
    (∀ o s, ∀ a ∈ (connectFail fuel o s (headerOf s.cursor)).attempts,
      a = headerOf s.cursor) ∧
    (∀ o s, ∀ a ∈ (reconnectFn fuel o s).attempts, a = headerOf s.cursor) := by
  induction fuel with
  | zero =>
    refine ⟨?_, ?_, ?_⟩ <;> intro o s <;> intro a ha <;>
      simp [connectFn, connectFail, reconnectFn] at ha
  | succ fuel ih =>
    obtain ⟨ihc, ihf, ihr⟩ := ih
    refine ⟨?_, ?_, ?_⟩
    · intro o s
      simp only [connectFn]
      split
      · split
        · exact ihr o s
        · intro a ha; simp at ha
      · split
        · intro a ha
          simp only [List.mem_singleton] at ha
          exact ha
        · exact ihf o _
        · exact ihf o _
    · intro o s
      simp only [connectFail]
      split
      · intro a ha
        simp only [Out.pre, List.mem_append, List.mem_singleton] at ha
        rcases ha with h | h
        · exact h
        · exact ihr o s a h
      · intro a ha
        simp only [List.mem_singleton] at ha
        exact ha
    · intro o s
      simp only [reconnectFn]
      split
      · intro a ha; simp at ha
      · split
        · split
          · intro a ha; simp at ha
          · intro a ha
            simp only [Out.pre, List.nil_append] at ha
            have h2 := ihc o _ a ha
            exact h2
        · intro a ha
          simp only [Out.pre, List.nil_append] at ha
          have h2 := ihc o _ a ha
          exact h2

/-- Cursor discipline of one pull relative to its entry state `s`: when a
value is emitted the cursor becomes the value's id if truthy (otherwise
stays), and when no value is emitted the cursor is unchanged. -/
def cursorSpec (s : MState) (r : Out (Option SSEMessage)) : Prop :=
  (∀ v, r.res = .ok (some v) →
    r.st.cursor = if truthyStr v.id? then v.id? else s.cursor) ∧
  ((∀ v, r.res ≠ .ok (some v)) → r.st.cursor = s.cursor)

theorem cursorSpec_mono {s s' : MState} {r : Out (Option SSEMessage)}
    (h : s'.cursor = s.cursor) (hr : cursorSpec s' r) : cursorSpec s r := by
  obtain ⟨h1, h2⟩ := hr
  exact ⟨fun v hv => (h1 v hv).trans (by rw [h]), fun hv => (h2 hv).trans h⟩

theorem cursorSpec_const {s : MState} {r : Out (Option SSEMessage)}
    (he : ∀ v, r.res ≠ .ok (some v)) (hst : r.st.cursor = s.cursor) :
    cursorSpec s r :=
  ⟨fun v hv => absurd hv (he v), fun _ => hst⟩

/-- Every pull updates the cursor exactly by the emitted event's truthy
id (and leaves it alone otherwise). -/
theorem next_cursorSpec (fuel : Nat) :
    (∀ o s, cursorSpec s (nextFn fuel o s)) ∧
    (∀ o s, cursorSpec s (tryPhase fuel o s)) ∧
    (∀ o s e, cursorSpec s (catchBlock fuel o s e)) := by
  induction fuel with
  | zero =>
    refine ⟨fun o s => ?_, fun o s => ?_, fun o s e => ?_⟩ <;>
      exact cursorSpec_const (by intro v hv; simp [nextFn, tryPhase, catchBlock] at hv)
        rfl
  | succ fuel ih =>
    obtain ⟨ihn, iht, ihcatch⟩ := ih
    have pc := (driver_cursor fuel).1
    have pr := (driver_cursor fuel).2.2
    refine ⟨?_, ?_, ?_⟩
    · intro o s
      simp only [nextFn]
      split
      · exact iht o s
      · split
        · exact cursorSpec_mono rfl (iht o _)
        · split
          · -- connect failed: error propagates
            refine cursorSpec_const (by intro v hv; simp at hv) ?_
            exact pc o s
          · split
            · refine cursorSpec_const (by intro v hv; simp at hv) ?_
              exact pc o s
            · have hbase : cursorSpec { (connectFn fuel o s).st with
                  readerAttached := true }
                  (tryPhase fuel o { (connectFn fuel o s).st with
                    readerAttached := true }) := iht o _
              exact cursorSpec_mono (pc o s)
                (cursorSpec_mono rfl hbase)
    · intro o s
      simp only [tryPhase]
      split
      · -- read error
        rename_i e s2 heq
        have hs2 : s2.cursor = s.cursor := by
          rw [← readStep_cursor o s, heq]
        exact cursorSpec_mono hs2 (ihcatch o s2 e)
      · -- done
        rename_i s2 heq
        have hs2 : s2.cursor = s.cursor := by
          rw [← readStep_cursor o s, heq]
        split
        · have hrc : (reconnectFn fuel o
              { s2 with readerAttached := false, stream := none }).st.cursor
              = s.cursor := by
            have h2 := pr o { s2 with readerAttached := false, stream := none }
            exact h2.trans hs2
          split
          · rename_i e heq2
            refine cursorSpec_mono hrc ?_
            exact cursorSpec_mono rfl (ihcatch o _ e)
          · refine cursorSpec_mono hrc ?_
            exact cursorSpec_mono rfl (ihn o _)
        · exact cursorSpec_const (by intro v hv; simp at hv) hs2
      · -- value
        rename_i v s2 heq
        have hs2 : s2.cursor = s.cursor := by
          rw [← readStep_cursor o s, heq]
        constructor
        · intro w hw
          simp only [] at hw
          cases hw
          split
          · rename_i ht
            simp [ht]
          · rename_i ht
            simp only [Bool.not_eq_true] at ht
            simp [ht, hs2]
        · intro hv
          exact absurd rfl (hv v)
    · intro o s e
      simp only [catchBlock]
      split
      · have hrc : (reconnectFn fuel o
            { s with readerAttached := false, stream := none }).st.cursor
            = s.cursor := pr o _
        split
        · exact cursorSpec_const (by intro v hv; simp at hv) hrc
        · refine cursorSpec_mono hrc ?_
          exact cursorSpec_mono rfl (ihn o _)
      · exact cursorSpec_const (by intro v hv; simp at hv) rfl

/-- Every attempt recorded during one pull carries the resumption header
computed from the cursor at entry of that pull. -/
theorem next_attempts (fuel : Nat) :
    (∀ o s, ∀ a ∈ (nextFn fuel o s).attempts, a = headerOf s.cursor) ∧
    (∀ o s, ∀ a ∈ (tryPhase fuel o s).attempts, a = headerOf s.cursor) ∧
    (∀ o s e, ∀ a ∈ (catchBlock fuel o s e).attempts, a = headerOf s.cursor) := by
  induction fuel with
  | zero =>
    refine ⟨fun o s => ?_, fun o s => ?_, fun o s e => ?_⟩ <;>
      intro a ha <;> simp [nextFn, tryPhase, catchBlock] at ha
  | succ fuel ih =>
    obtain ⟨ihn, iht, ihcatch⟩ := ih
    have hc := (driver_attempts fuel).1
    have hr := (driver_attempts fuel).2.2
    have pc := (driver_cursor fuel).1
    have pr := (driver_cursor fuel).2.2
    refine ⟨?_, ?_, ?_⟩
    · intro o s
      simp only [nextFn]
      split
      · exact iht o s
      · split
        · exact iht o _
        · split
          · exact hc o s
          · split
            · exact hc o s
            · intro a ha
              simp only [Out.pre, List.mem_append] at ha
              rcases ha with h | h
              · exact hc o s a h
              · have h2 := iht o _ a h
                rw [h2]
                show headerOf (connectFn fuel o s).st.cursor = headerOf s.cursor
                rw [pc o s]
    · intro o s
      simp only [tryPhase]
      split
      · rename_i e s2 heq
        have hs2 : s2.cursor = s.cursor := by
          rw [← readStep_cursor o s, heq]
        intro a ha
        rw [ihcatch o s2 e a ha, hs2]
      · rename_i s2 heq
        have hs2 : s2.cursor = s.cursor := by
          rw [← readStep_cursor o s, heq]
        split
        · have hrc : (reconnectFn fuel o
              { s2 with readerAttached := false, stream := none }).st.cursor
              = s.cursor := (pr o _).trans hs2
          split
          · rename_i e heq2
            intro a ha
            simp only [Out.pre, List.mem_append] at ha
            rcases ha with h | h
            · have h2 := hr o _ a h
              rw [h2]
              show headerOf s2.cursor = headerOf s.cursor
              rw [hs2]
            · rw [ihcatch o _ e a h, hrc]
          · intro a ha
            simp only [Out.pre, List.mem_append] at ha
            rcases ha with h | h
            · have h2 := hr o _ a h
              rw [h2]
              show headerOf s2.cursor = headerOf s.cursor
              rw [hs2]
            · rw [ihn o _ a h, hrc]
        · intro a ha
          simp at ha
      · intro a ha
        simp at ha
    · intro o s e
      simp only [catchBlock]
      split
      · have hrc : (reconnectFn fuel o
            { s with readerAttached := false, stream := none }).st.cursor
            = s.cursor := pr o _
        split
        · intro a ha
          have h2 := hr o _ a ha
          rw [h2]
        · intro a ha
          simp only [Out.pre, List.mem_append] at ha
          rcases ha with h | h
          · have h2 := hr o _ a h
            rw [h2]
          · rw [ihn o _ a h, hrc]
      · intro a ha
        simp at ha

/-- A run of `connect` against `n` failing fetches followed by a
success: every retry waits `min(initialDelay * 2^(retryCount))` (the
counter before increment), the run succeeds, and the counter is reset to
0 by the successful connection. -/
theorem connect_replicate_fail (n : Nat) :
    ∀ (f : Nat) (o : Options) (s : MState) (evs : List SSEMessage) (k : EndKind),
      o.retryStrategy = true → o.maxRetries = none → o.abortController = none →
      s.world = List.replicate n .fail ++ [.ok evs k] →
      (connectFn (f + 3 * n + 1) o s).res = .ok () ∧
      (connectFn (f + 3 * n + 1) o s).st.retryCount = 0 ∧
      (connectFn (f + 3 * n + 1) o s).delays =
        (List.range n).map
          (fun j => min (o.initialRetryDelay * 2 ^ (s.retryCount + j))
            o.maxRetryDelay) := by
  induction n with
  | zero =>
    intro f o s evs k hrs hmr hab hw
    simp only [List.replicate, List.nil_append] at hw
    simp only [connectFn]
    rw [show abortedAt o s.time = false from by simp [abortedAt, hab]]
    simp only [Bool.false_eq_true, if_false, hw]
    exact ⟨trivial, trivial, by simp⟩
  | succ n ih =>
    intro f o s evs k hrs hmr hab hw
    simp only [List.replicate_succ, List.cons_append] at hw
    have hfuel : f + 3 * (n + 1) + 1 = (f + 3 * n + 3) + 1 := by ring
    rw [hfuel]
    simp only [connectFn]
    rw [show abortedAt o s.time = false from by simp [abortedAt, hab]]
    simp only [Bool.false_eq_true, if_false, hw]
    have hfuel2 : f + 3 * n + 3 = (f + 3 * n + 2) + 1 := by ring
    rw [hfuel2]
    simp only [connectFail]
    rw [show (o.retryStrategy && shouldRetry o
        ({ s with world := List.replicate n FetchResult.fail ++
          [FetchResult.ok evs k] } : MState).retryCount) = true from by
      simp [hrs, shouldRetry, hmr]]
    simp only [if_true]
    have hfuel3 : f + 3 * n + 2 = (f + 3 * n + 1) + 1 := by ring
    rw [hfuel3]
    simp only [reconnectFn]
    rw [show abortedAt o s.time = false from by simp [abortedAt, hab]]
    simp only [Bool.false_eq_true, if_false, hab]
    have := ih f o
      ({ s with
          world := List.replicate n FetchResult.fail ++ [FetchResult.ok evs k],
          retryCount := s.retryCount + 1,
          time := s.time + min (o.initialRetryDelay * 2 ^ (s.retryCount + 1 - 1))
            o.maxRetryDelay })
      evs k hrs hmr hab rfl
    obtain ⟨r1, r2, r3⟩ := this
    refine ⟨r1, r2, ?_⟩
    simp only [Out.pre, List.nil_append] at r3 ⊢
    rw [List.range_succ_eq_map, List.map_cons, List.map_map]
    refine List.cons_eq_cons.mpr ⟨by simp, ?_⟩
    rw [r3]
    exact List.map_congr_left (fun j hj => by
      have he : s.retryCount + 1 + j = s.retryCount + (j + 1) := by omega
      simp [Function.comp, he])

/-! ## `useSSEStream` option normalisation (index.ts) -/

/-- Inputs of `useSSEStream` as far as the model observes them.  URL
parsing is a host primitive: `urlPresent` is the truthiness of
`options.url`, `urlParses` whether `new URL` succeeds, `urlProtocolHttp`
whether the protocol is `http:`/`https:`. -/
structure RawOptions where
  urlPresent : Bool
  urlParses : Bool
  urlProtocolHttp : Bool
  withCredentials : Option Bool
  retryStrategy : Option Bool
  initialRetryDelay : Option Int
  maxRetryDelay : Option Int
  /-- Value none models an absent option, defaulted to `Infinity`. -/
  maxRetries : Option Int
  abortController : Option (Option Nat)
  lastEventId : Option (List Char)
deriving DecidableEq, Repr

/-- The configuration errors `useSSEStream` throws synchronously. -/
inductive ConfigError where
  | urlRequired
  | invalidUrl
  | negativeInitialDelay
  | maxBelowInitial
  | negativeMaxRetries
deriving DecidableEq, Repr

/-- The defaulted options `useSSEStream` passes to `new BetterSSEStream`.
`maxRetries = none` models `Infinity`. -/
structure NormalizedOptions where
  withCredentials : Bool
  retryStrategy : Bool
  initialRetryDelay : Int
  maxRetryDelay : Int
  maxRetries : Option Int
  abortController : Option (Option Nat)
  lastEventId : Option (List Char)
deriving DecidableEq, Repr

/-- Condition `maxRetries! < 0` where `none` plays `Infinity` (never `< 0`). -/
def ltZeroOpt : Option Int → Bool
  | some m => decide (m < 0)
  | none => false

/-- Model of `useSSEStream`: URL validation, defaulting (`withCredentials ?? false`,
`retryStrategy ?? true`, `initialRetryDelay ?? 1000`,
`maxRetryDelay ?? 30000`, `maxRetries ?? Infinity`,
`abortController: options.abortController` — passed through unchanged),
then parameter validation. -/
def useSSEStreamNormalize (r : RawOptions) : Except ConfigError NormalizedOptions :=
  if ¬ r.urlPresent then .error .urlRequired
  else if ¬ (r.urlParses ∧ r.urlProtocolHttp) then .error .invalidUrl
  else
    let n : NormalizedOptions :=
      ⟨r.withCredentials.getD false, r.retryStrategy.getD true,
        r.initialRetryDelay.getD 1000, r.maxRetryDelay.getD 30000,
        r.maxRetries, r.abortController, r.lastEventId⟩
    if n.initialRetryDelay < 0 then .error .negativeInitialDelay
    else if n.maxRetryDelay < n.initialRetryDelay then .error .maxBelowInitial
    else if ltZeroOpt n.maxRetries then .error .negativeMaxRetries
    else .ok n

/-! ## Claim theorems about the iterator -/

/-- Options of the C2 counterexample run: retry enabled, `maxRetries: 0`,
no controller; the empty oracle is an always-failing transport. -/
def oC2 : Options := ⟨true, 1000, 30000, some 0, none, none⟩

/-- Claim C2 counterexample: with `maxRetries: 0` and an always-failing
transport, the first pull makes exactly one connection attempt and
incurs no backoff delay, but it REJECTS with the connection error
(`connect()` is awaited outside the `try` of `next()`), instead of
resolving as a done result as the claim states. -/
theorem claim_C2_counterexample :
    (nextFn 10 oC2 (initState oC2 [])).res = .error .genericError ∧
    (nextFn 10 oC2 (initState oC2 [])).attempts = [none] ∧
    (nextFn 10 oC2 (initState oC2 [])).delays = [] :=
  ⟨rfl, rfl, rfl⟩

/-- Claim C2 amended: a mid-stream read error with retry disabled or
budget exhausted resolves as end-of-sequence (done), with no further
attempt and no delay; a connection-phase failure with retry unavailable
is instead thrown from the pull — with `maxRetries: 0` and an
always-failing transport, exactly one connection attempt is made, no
backoff delay is incurred, and the pull rejects with the error. -/
theorem claim_C2_transport_error_paths (fuel : Nat) (o : Options) (s : MState) :
    (s.readerAttached = true → s.stream = some ([], .readError) →
      abortedAt o s.time = false →
      (o.retryStrategy = false ∨ shouldRetry o s.retryCount = false) →
      (nextFn (fuel + 3) o s).res = .ok none ∧
      (nextFn (fuel + 3) o s).attempts = [] ∧
      (nextFn (fuel + 3) o s).delays = []) ∧
    ((nextFn 10 oC2 (initState oC2 [])).res = .error .genericError ∧
      (nextFn 10 oC2 (initState oC2 [])).attempts = [none] ∧
      (nextFn 10 oC2 (initState oC2 [])).delays = []) := by
  constructor
  · intro hra hst hab hnr
    have hread : readStep o s = (.error .genericError, s) := by
      simp [readStep, hab, hst]
    rw [show fuel + 3 = (fuel + 1 + 1) + 1 from rfl]
    simp only [nextFn, hra, if_true]
    simp only [tryPhase, hread]
    simp only [catchBlock]
    rw [show (JSError.genericError != JSError.abortError &&
        (o.retryStrategy && shouldRetry o s.retryCount)) = false from by
      rcases hnr with h | h <;> simp [h]]
    simp
  · exact ⟨rfl, rfl, rfl⟩

/-- Witness scenario for the C2 amended theorem: retry disabled, a
stream that errors on the first read. -/
def oW2 : Options := ⟨false, 1000, 30000, none, none, none⟩

/-- State of the C2 witness: reader attached to a stream whose read
fails. -/
def sW2 : MState := ⟨0, none, some ([], .readError), true, 0, []⟩

/-- Witness for the C2 amended theorem at a concrete scenario. -/
theorem claim_C2_transport_error_paths_witness :
    (nextFn 3 oW2 sW2).res = .ok none ∧
    (nextFn 3 oW2 sW2).delays = [] :=
  ⟨((claim_C2_transport_error_paths 0 oW2 sW2).1 rfl rfl rfl (Or.inl rfl)).1,
    ((claim_C2_transport_error_paths 0 oW2 sW2).1 rfl rfl rfl (Or.inl rfl)).2.2⟩

/-- Options of the C3 counterexample run: retry enabled, unbounded
budget, a controller whose signal fired at time 0. -/
def oC3 : Options := ⟨true, 1000, 30000, none, some (some 0), none⟩

/-- Claim C3 counterexample: with the cancellation signal already
triggered, the first pull does NOT resolve as end-of-sequence: the
`AbortError` escapes `connect()`/`reconnect()` (awaited outside the
`try` of `next()`) and the pull rejects with it. -/
theorem claim_C3_counterexample :
    (nextFn 10 oC3 (initState oC3 [])).res = .error .abortError :=
  rfl

/-- Claim C3 amended: an abort observed by a read resolves that pull as
end-of-sequence; an abort firing during a backoff wait entered from
within the read loop resolves the pull as end-of-sequence having waited
only until the abort time (strictly within the delay window); but an
abort hit during connection establishment propagates as a thrown
`AbortError`. -/
theorem claim_C3_abort_paths (fuel : Nat) (o : Options) (s : MState) (a : Nat) :
    (s.readerAttached = true → abortedAt o s.time = true →
      (nextFn (fuel + 3) o s).res = .ok none) ∧
    (s.readerAttached = true → s.stream = some ([], .cleanEnd) →
      o.retryStrategy = true → shouldRetry o s.retryCount = true →
      o.abortController = some (some a) → s.time < a →
      a < s.time + min (o.initialRetryDelay * 2 ^ s.retryCount) o.maxRetryDelay →
      (nextFn (fuel + 3) o s).res = .ok none ∧
      (nextFn (fuel + 3) o s).delays = [a - s.time] ∧
      a - s.time < min (o.initialRetryDelay * 2 ^ s.retryCount) o.maxRetryDelay) ∧
    ((nextFn 10 oC3 (initState oC3 [])).res = .error .abortError) := by
  refine ⟨?_, ?_, rfl⟩
  · intro hra hab
    have hread : readStep o s = (.error .abortError, s) := by
      simp [readStep, hab]
    rw [show fuel + 3 = (fuel + 1 + 1) + 1 from rfl]
    simp only [nextFn, hra, if_true]
    simp only [tryPhase, hread]
    simp only [catchBlock]
    simp
  · intro hra hst hrs hsr hac hlt hwin
    have hab : abortedAt o s.time = false := by
      simp only [abortedAt, hac, decide_eq_false_iff_not]
      omega
    have hread : readStep o s = (.ok none, s) := by
      simp [readStep, hab, hst]
    refine ⟨?_, ?_, by omega⟩ <;>
    · rw [show fuel + 3 = (fuel + 1 + 1) + 1 from rfl]
      simp only [nextFn, hra, if_true]
      simp only [tryPhase, hread]
      simp only [hrs, hsr, Bool.and_self, if_true]
      simp only [reconnectFn, hab, hac, Bool.false_eq_true, if_false]
      have hwin2 : a < s.time +
          o.initialRetryDelay * 2 ^ (s.retryCount + 1 - 1) ⊓ o.maxRetryDelay := by
        simpa [Nat.add_sub_cancel] using hwin
      rw [if_pos hwin2]
      simp only [catchBlock]
      simp [Out.pre]

/-- Witness scenario for the C3 amended theorem: abort fires at time 400
inside the first 1000 ms backoff window. -/
def oW3 : Options := ⟨true, 1000, 30000, none, some (some 400), none⟩

/-- State of the C3 witness: reader attached to a cleanly-ended stream,
so the pull enters reconnect and suspends in the backoff wait. -/
def sW3 : MState := ⟨0, none, some ([], .cleanEnd), true, 0, []⟩

/-- State of a second C3 witness scenario: the signal already fired
(time 5 ≥ abort time 0), a read is attempted. -/
def sW3a : MState := ⟨0, none, some ([], .cleanEnd), true, 5, []⟩

/-- Witness for the C3 amended theorem at concrete scenarios: an abort
inside the backoff window resolves the pull done after 400 of the
1000 ms, and an abort observed by a read resolves the pull done. -/
theorem claim_C3_abort_paths_witness :
    ((nextFn 3 oW3 sW3).res = .ok none ∧
      (nextFn 3 oW3 sW3).delays = [400] ∧ 400 - 0 < 1000) ∧
    (nextFn 3 oC3 sW3a).res = Except.ok none := by
  have h := (claim_C3_abort_paths 0 oW3 sW3 400).2.1 rfl rfl rfl rfl rfl
    (by decide) (by decide)
  exact ⟨⟨h.1, h.2.1, by decide⟩,
    (claim_C3_abort_paths 0 oC3 sW3a 400).1 rfl rfl⟩

/-- Claim C4: one pull updates the cursor exactly to the truthy id of the
event it emits (unchanged when nothing is emitted — never rolled back),
and every connection attempt made during a pull sends as `Last-Event-ID`
header the cursor at entry of the pull; in particular when the cursor
holds a known non-empty id, every attempt of the pull sends exactly that
id. -/
theorem claim_C4_cursor_resumption (fuel : Nat) (o : Options) (s : MState) :
    cursorSpec s (nextFn fuel o s) ∧
    (∀ a ∈ (nextFn fuel o s).attempts, a = headerOf s.cursor) ∧
    (∀ id0 : List Char, s.cursor = some id0 → id0 ≠ [] →
      ∀ a ∈ (nextFn fuel o s).attempts, a = some id0) := by
  refine ⟨(next_cursorSpec fuel).1 o s, (next_attempts fuel).1 o s, ?_⟩
  intro id0 hc hne a ha
  rw [(next_attempts fuel).1 o s a ha, hc]
  cases id0 with
  | nil => exact absurd rfl hne
  | cons c cs => rfl

/-- Options of the C4 witness run. -/
def oW4 : Options := ⟨true, 1, 100, some 1, none, none⟩

/-- State of the C4 witness run: cursor `"50"`, a stream that errors on
read, an always-failing transport; the pull reconnects once, sending the
cursor as header. -/
def sW4 : MState := ⟨0, some ['5', '0'], some ([], .readError), true, 0, []⟩

/-- Witness for C4: in the concrete run the reconnect attempt carries
header `"50"` and the cursor is not rolled back. -/
theorem claim_C4_cursor_resumption_witness :
    (nextFn 10 oW4 sW4).attempts.getD 0 none = some ['5', '0'] ∧
    (nextFn 10 oW4 sW4).st.cursor = some ['5', '0'] := by
  have h := claim_C4_cursor_resumption 10 oW4 sW4
  constructor
  · exact h.2.2 ['5', '0'] rfl (by decide) _ (by decide)
  · refine h.1.2 ?_
    intro v hv
    rw [show (nextFn 10 oW4 sW4).res = Except.error JSError.genericError
      from rfl] at hv
    exact Except.noConfusion hv

/-- Claim C5: with the retry counter reset to 0 (as any successful
established connection does), the backoff delay before the n-th
consecutive retry is `min(initialDelay * 2^(n-1), maxDelay)`: a run
against `n` failing fetches followed by a success waits exactly the
delays `min(initialDelay * 2^j, maxDelay)` for `j = 0 .. n-1`, succeeds,
and resets the counter to 0 again. -/
theorem claim_C5_backoff_formula (n f : Nat) (o : Options) (s : MState)
    (evs : List SSEMessage) (k : EndKind)
    (hrs : o.retryStrategy = true) (hmr : o.maxRetries = none)
    (hab : o.abortController = none)
    (hw : s.world = List.replicate n .fail ++ [.ok evs k])
    (hrc : s.retryCount = 0) :
    (connectFn (f + 3 * n + 1) o s).delays =
      (List.range n).map
        (fun j => min (o.initialRetryDelay * 2 ^ j) o.maxRetryDelay) ∧
    (connectFn (f + 3 * n + 1) o s).res = .ok () ∧
    (connectFn (f + 3 * n + 1) o s).st.retryCount = 0 := by
  obtain ⟨r1, r2, r3⟩ := connect_replicate_fail n f o s evs k hrs hmr hab hw
  refine ⟨?_, r1, r2⟩
  rw [r3]
  exact List.map_congr_left (fun j hj => by rw [hrc, Nat.zero_add])

/-- Options of the C5 witness run: `initialDelay = 1000`,
`maxDelay = 30000`, unbounded retries. -/
def oW5 : Options := ⟨true, 1000, 30000, none, none, none⟩

/-- State of the C5 witness run: six failing fetches then a success. -/
def sW5 : MState := initState oW5 (List.replicate 6 .fail ++ [.ok [] .cleanEnd])

/-- Witness for C5: retries 1..6 wait 1000, 2000, 4000, 8000, 16000,
30000 (capped). -/
theorem claim_C5_backoff_formula_witness :
    (connectFn (0 + 3 * 6 + 1) oW5 sW5).delays =
      [1000, 2000, 4000, 8000, 16000, 30000] ∧
    (connectFn (0 + 3 * 6 + 1) oW5 sW5).st.retryCount = 0 := by
  have h := claim_C5_backoff_formula 6 0 oW5 sW5 [] .cleanEnd rfl rfl rfl rfl rfl
  refine ⟨?_, h.2.2⟩
  rw [h.1]
  decide

/-- Raw options with every option left out except a valid URL. -/
def rawNoController : RawOptions :=
  ⟨true, true, true, none, none, none, none, none, none, none⟩

/-- Options of the C7 counterexample run (what normalisation produces
for `rawNoController` as far as the driver reads it, with retry off so
the post-close pull ends quickly). -/
def oC7 : Options := ⟨false, 1000, 30000, none, none, none⟩

/-- State of the C7 run before `close()`: an open stream and reader, and
one more successful fetch available. -/
def sC7 : MState := ⟨0, none, some ([], .cleanEnd), true, 5, [.ok [] .cleanEnd]⟩

/-- Claim C7 counterexample: `useSSEStream` does NOT create a cancellation
handle when none is supplied — `abortController: options.abortController`
passes `undefined` through — so `close()` has no signal to trigger (the
options are returned untouched) and a subsequent pull opens a fresh
connection (a new attempt is recorded). -/
theorem claim_C7_counterexample :
    useSSEStreamNormalize rawNoController =
      .ok ⟨false, true, 1000, 30000, none, none, none⟩ ∧
    (close oC7 sC7).1 = oC7 ∧
    (nextFn 10 (close oC7 sC7).1 (close oC7 sC7).2).attempts = [none] :=
  ⟨rfl, rfl, rfl⟩

/-- Claim C7 amended: no cancellation handle is created internally:
normalisation passes the (possibly absent) controller through unchanged;
`close()` clears the stream and reader references and triggers only a
supplied controller (making its signal fire now); with no controller
supplied the options are untouched and a subsequent pull opens a new
connection. -/
theorem claim_C7_close_behaviour :
    (∀ (r : RawOptions) (n : NormalizedOptions), useSSEStreamNormalize r = .ok n →
      n.abortController = r.abortController) ∧
    (∀ (o : Options) (s : MState),
      (close o s).2.stream = none ∧ (close o s).2.readerAttached = false) ∧
    (∀ (o : Options) (s : MState), o.abortController = none → (close o s).1 = o) ∧
    (∀ (o : Options) (s : MState), o.abortController = some none →
      (close o s).1.abortController = some (some s.time)) ∧
    (∀ (o : Options) (s : MState) (t : Nat), o.abortController = some (some t) →
      (close o s).1.abortController = some (some (min t s.time))) ∧
    (nextFn 10 (close oC7 sC7).1 (close oC7 sC7).2).attempts = [none] := by
  refine ⟨?_, ?_, ?_, ?_, ?_, rfl⟩
  · intro r n h
    unfold useSSEStreamNormalize at h
    split at h
    · exact Except.noConfusion h
    split at h
    · exact Except.noConfusion h
    dsimp only at h
    split at h
    · exact Except.noConfusion h
    split at h
    · exact Except.noConfusion h
    split at h
    · exact Except.noConfusion h
    cases h
    rfl
  · intro o s
    exact ⟨rfl, rfl⟩
  · intro o s h
    simp [close, h]
  · intro o s h
    simp [close, h]
  · intro o s t h
    simp [close, h]

/-- Witness for the C7 amended theorem: normalisation of options without
a controller yields a configuration whose controller is still absent. -/
theorem claim_C7_close_behaviour_witness :
    (⟨false, true, 1000, 30000, none, none, none⟩ :
      NormalizedOptions).abortController = rawNoController.abortController ∧
    (close oC7 sC7).1 = oC7 :=
  ⟨claim_C7_close_behaviour.1 rawNoController _ rfl,
    claim_C7_close_behaviour.2.2.1 oC7 sC7 rfl⟩

/-- Claim C10: a frame whose `id` line has an empty value yields an event
with id `""`; the cursor update is a truthiness test, so such an event
does not move the cursor; and an empty cursor is never sent as a
`Last-Event-ID` header on any connection attempt. -/
theorem claim_C10_empty_id (fuel : Nat) (o : Options) (s : MState) :
    parseFrame "data: x\nid:".toList =
      some ⟨"message".toList, "x".toList, some [], none⟩ ∧
    (∀ v : SSEMessage, (nextFn fuel o s).res = .ok (some v) → v.id? = some [] →
      (nextFn fuel o s).st.cursor = s.cursor) ∧
    (s.cursor = some [] → ∀ a ∈ (connectFn fuel o s).attempts, a = none) ∧
    (s.cursor = some [] → ∀ a ∈ (nextFn fuel o s).attempts, a = none) := by
  refine ⟨rfl, ?_, ?_, ?_⟩
  · intro v hv hid
    have h := ((next_cursorSpec fuel).1 o s).1 v hv
    rw [hid] at h
    simpa [truthyStr] using h
  · intro hc a ha
    rw [(driver_attempts fuel).1 o s a ha, hc]
    rfl
  · intro hc a ha
    rw [(next_attempts fuel).1 o s a ha, hc]
    rfl

/-- Options of the first C10 witness run. -/
def oW10 : Options := ⟨false, 1000, 30000, none, none, none⟩

/-- State of the first C10 witness run: the stream delivers one event
whose id is the empty string; the cursor holds `"7"`. -/
def sW10 : MState :=
  ⟨0, some ['7'], some ([⟨"message".toList, "x".toList, some [], none⟩],
    .cleanEnd), true, 0, []⟩

/-- State of the second C10 witness run: the cursor is the empty string
and a connection attempt is made. -/
def sW10b : MState := ⟨0, some [], none, false, 0, [.ok [] .cleanEnd]⟩

/-- Witness for C10: the empty-id event leaves the cursor at `"7"`, and
an attempt made with an empty cursor sends no header. -/
theorem claim_C10_empty_id_witness :
    (nextFn 5 oW10 sW10).st.cursor = some ['7'] ∧
    (nextFn 5 oW10 sW10b).attempts.getD 0 (some ['x']) = none := by
  constructor
  · exact (claim_C10_empty_id 5 oW10 sW10).2.1
      ⟨"message".toList, "x".toList, some [], none⟩ rfl rfl
  · exact (claim_C10_empty_id 5 oW10 sW10b).2.2.2 rfl _ (by decide)

end BetterSSE
